import Mathlib

/-!
Shallow embedding of the `dechib` storage engine
(`src/dechib_core/src/storage_engine.rs`).

The value/schema types (`Value`, `ColumnDescriptor`, `Record`,
`CreateTableOptions`, `InsertOptions` and their helper predicates) live in
the repository's `types` module, which is not among the provided sources;
those definitions are modelled from the spec and carry a doc comment
starting with `Modelled from the spec:`.  Every engine operation
(`generate_pk_name`, `validate_table_options`, `create_table`,
`table_metadata`, `insert_rows`) follows the Rust source.  The external
rocksdb store is modelled as a pure namespaced key/value map with atomic
batch write; serialisation (`to_allocvec` / `from_bytes`) is modelled as an
exact round-trip, which the spec requires of any encoding.
-/

namespace Dechib

/-- Modelled from the spec: the tagged value union (§3) — text,
arbitrary-precision decimal number, boolean. -/
inductive Value where
  | text (s : String)
  | number (n : Int)
  | boolean (b : Bool)
deriving DecidableEq, Repr

/-- Modelled from the spec: declared column datatypes (§4.1) — an
unsigned-integer/numeric type, a text type and a boolean type. -/
inductive Datatype where
  | unsignedInteger
  | text
  | boolean
deriving DecidableEq, Repr

/-- Modelled from the spec: a default expression is either a literal
constant value or an unsupported general expression (§3, §4.4 step 3). -/
inductive Expr where
  | value (v : Value)
  | nonLiteral
deriving DecidableEq, Repr

/-- Modelled from the spec: per-column schema (§3) — declared datatype,
constraint flags, optional default expression, optional foreign key. -/
structure ColumnDescriptor where
  datatype : Datatype
  not_null : Bool := false
  unique : Bool := false
  primary_key : Bool := false
  auto_increment : Bool := false
  default : Option Expr := none
  foreign_key : Option (String × String) := none
deriving DecidableEq, Repr

/-- Modelled from the spec (§3): true if the column has no default and is
not auto-increment, hence must be supplied by every insert. -/
def ColumnDescriptor.needs_value (d : ColumnDescriptor) : Bool :=
  d.default.isNone && !d.auto_increment

/-- Modelled from the spec (§3): true if the column has a default or is
auto-increment, i.e. may be omitted and synthesised. -/
def ColumnDescriptor.should_generate (d : ColumnDescriptor) : Bool :=
  d.default.isSome || d.auto_increment

/-- Modelled from the spec (§4.1): compare a value's runtime variant with
the declared datatype; the numeric datatype accepts the decimal-number
variant, text accepts text, boolean accepts boolean; mismatches are
rejected, not coerced. -/
def ColumnDescriptor.value_matches_type (d : ColumnDescriptor) (v : Value) : Bool :=
  match d.datatype, v with
  | .unsignedInteger, .number _ => true
  | .text, .text _ => true
  | .boolean, .boolean _ => true
  | _, _ => false

/-- Association-list view of a `BTreeMap<String, α>`: the list is the
sequence of entries in the map's iteration (key) order. -/
abbrev Smap (α : Type) := List (String × α)

def lookupS {α : Type} : Smap α → String → Option α
  | [], _ => none
  | (k, v) :: rest, key => if k = key then some v else lookupS rest key

def containsS {α : Type} (m : Smap α) (k : String) : Bool :=
  (lookupS m k).isSome

/-- Lexicographic order on character lists, by code point: the order
`BTreeMap<String, _>` keys are stored in. -/
def charsLt : List Char → List Char → Bool
  | [], [] => false
  | [], _ :: _ => true
  | _ :: _, [] => false
  | a :: as, b :: bs =>
    if a.toNat < b.toNat then true
    else if b.toNat < a.toNat then false
    else charsLt as bs

/-- Lexicographic order on strings (executable form of `String` `<`). -/
def strLt (a b : String) : Bool := charsLt a.toList b.toList

/-- `BTreeMap::insert`: replace the value at an existing key, or insert the
new entry at its key-ordered position. -/
def insertS {α : Type} : Smap α → String → α → Smap α
  | [], k, v => [(k, v)]
  | (k', v') :: rest, k, v =>
    if strLt k k' then (k, v) :: (k', v') :: rest
    else if k = k' then (k, v) :: rest
    else (k', v') :: insertS rest k v

/-- The persisted table schema: ordered mapping column name → descriptor. -/
abbrev ColumnDescriptors := Smap ColumnDescriptor

/-- Modelled from the spec (§3): one row as an ordered mapping from column
name to value (shared `Rc<Value>` handles are modelled by the values
themselves, which are immutable). -/
structure Record where
  columns : Smap Value
deriving DecidableEq, Repr

/-- Identity of one auto-increment counter: `(table, column)`. -/
structure Entry where
  table : String
  column : String
deriving DecidableEq, Repr

/-- The in-memory `BTreeMap<Entry, AtomicUsize>`; iteration order is never
observed, so a plain association list with unique keys suffices. -/
abbrev Counters := List (Entry × Nat)

def lookupE : Counters → Entry → Option Nat
  | [], _ => none
  | (e, n) :: rest, key => if e = key then some n else lookupE rest key

def insertE : Counters → Entry → Nat → Counters
  | [], e, n => [(e, n)]
  | (e', n') :: rest, e, n =>
    if e' = e then (e, n) :: rest else (e', n') :: insertE rest e n

/-- A value persisted in a namespace: the serialised schema under the
reserved metadata key, or a serialised row.  Serialisation is modelled as
exact (the spec only requires that the encoding round-trips). -/
inductive StoredVal where
  | meta (m : ColumnDescriptors)
  | row (r : Record)
deriving DecidableEq, Repr

/-- Replace-or-append put into one namespace's key/value pairs. -/
def nsPut : Smap StoredVal → String → StoredVal → Smap StoredVal
  | [], k, v => [(k, v)]
  | (k', v') :: rest, k, v =>
    if k' = k then (k, v) :: rest else (k', v') :: nsPut rest k v

/-- The external ordered KV store: a map from namespace (column family)
name to that namespace's key/value pairs. -/
structure DB where
  cfs : Smap (Smap StoredVal)
deriving DecidableEq, Repr

def DB.cf_handle (db : DB) (name : String) : Option (Smap StoredVal) :=
  lookupS db.cfs name

/-- `create_cf`: fails (returns `none`) if the namespace already exists. -/
def DB.create_cf (db : DB) (name : String) : Option DB :=
  match db.cf_handle name with
  | some _ => none
  | none => some ⟨db.cfs ++ [(name, [])]⟩

def DB.put_cf (db : DB) (name key : String) (v : StoredVal) : DB :=
  ⟨db.cfs.map (fun p => if p.1 = name then (p.1, nsPut p.2 key v) else p)⟩

def DB.get_cf (db : DB) (name key : String) : Option StoredVal :=
  match db.cf_handle name with
  | none => none
  | some ns => lookupS ns key

/-- Atomic batch write: apply every staged put, in order. -/
def DB.write (db : DB) (batch : List (String × String × StoredVal)) : DB :=
  batch.foldl (fun d p => d.put_cf p.1 p.2.1 p.2.2) db

/-- The storage engine facade: the store handle plus the in-memory
auto-increment counter table. -/
structure StorageEngine where
  db : DB
  auto_incs : Counters
deriving DecidableEq, Repr

/-- `StorageEngine::new_with_path` on an existing store: enumerate and
attach to every existing namespace, seeding no auto-increment counters
(`auto_incs` starts empty). -/
def attachStore (db : DB) : StorageEngine := ⟨db, []⟩

def TABLE_METADATA_KEY : String := "__metadata__"

/-- Every error the engine can surface; the Rust source reports these as
`anyhow` messages, named here after the spec's §7 taxonomy. -/
inductive EngineError where
  | tableNotFound (t : String)
  | noMetadata (t : String)
  | decodeError
  | foreignKeyColumnMissing (t c : String)
  | foreignKeyNotPrimary (t c : String)
  | tableExists (t : String)
  | unknownColumn (c : String)
  | missingColumn (c : String)
  | unsupportedDefault (c : String)
  | noCounter (c : String)
  | ungeneratable (c : String)
  | typeMismatch (c : String)
  | storeWriteError
deriving DecidableEq, Repr

/-- Modelled from the spec (§6): the create-table request shape. -/
structure CreateTableOptions where
  name : String
  columns : ColumnDescriptors
deriving DecidableEq, Repr

/-- Modelled from the spec (§6): the insert request shape — table name,
supplied column names, and rows as positional value lists. -/
structure InsertOptions where
  table : String
  columns : List String
  values : List (List Value)
deriving DecidableEq, Repr

/-- `table_metadata`: look up the namespace, read and decode the reserved
metadata key. -/
def table_metadata (eng : StorageEngine) (name : String) :
    Except EngineError ColumnDescriptors :=
  match eng.db.cf_handle name with
  | none => .error (.tableNotFound name)
  | some ns =>
    match lookupS ns TABLE_METADATA_KEY with
    | none => .error (.noMetadata name)
    | some (.meta m) => .ok m
    | some (.row _) => .error .decodeError

/-- The column scan inside `validate_table_options`: for every column
carrying a foreign key, resolve the target table's schema and check the
target column exists and is a primary key. -/
def validateFks (eng : StorageEngine) : ColumnDescriptors → Except EngineError Unit
  | [] => .ok ()
  | (_, props) :: rest =>
    match props.foreign_key with
    | none => validateFks eng rest
    | some (t, c) =>
      match table_metadata eng t with
      | .error e => .error e
      | .ok md =>
        match lookupS md c with
        | none => .error (.foreignKeyColumnMissing t c)
        | some desc =>
          if desc.primary_key then validateFks eng rest
          else .error (.foreignKeyNotPrimary t c)

def validate_table_options (eng : StorageEngine) (ct : CreateTableOptions) :
    Except EngineError Unit :=
  validateFks eng ct.columns

/-- `create_table`: validate foreign keys, create the namespace, persist
the schema under the reserved key, seed (to 1) a counter for every
auto-increment column.  Returns the error (if any) and the engine state
after the call. -/
def create_table (eng : StorageEngine) (ct : CreateTableOptions) :
    Option EngineError × StorageEngine :=
  match validate_table_options eng ct with
  | .error e => (some e, eng)
  | .ok _ =>
    match eng.db.create_cf ct.name with
    | none => (some (.tableExists ct.name), eng)
    | some db1 =>
      let db2 := db1.put_cf ct.name TABLE_METADATA_KEY (.meta ct.columns)
      let incs := ct.columns.foldl
        (fun acc p =>
          if p.2.auto_increment then insertE acc ⟨ct.name, p.1⟩ 1 else acc)
        eng.auto_incs
      (none, ⟨db2, incs⟩)

/-- Remove the last character of a string (`String::pop`). -/
def strPop (s : String) : String := String.mk s.toList.dropLast

/-- `generate_pk_name`: concatenate, in schema iteration order, the names
of every column not flagged `primary_key`, each followed by `/`; pop the
trailing separator; assert the result is non-empty.  `none` models the
assertion firing (a panic).  The `record` argument is unused, exactly as in
the source. -/
def generate_pk_name (record : Record) (metadata : ColumnDescriptors) :
    Option String :=
  let name :=
    ((metadata.filter (fun p => !p.2.primary_key)).map Prod.fst).foldl
      (fun acc k => acc ++ k ++ "/") ""
  let name := strPop name
  if name = "" then none else some name

/-- A per-column generation action recorded before the row loop: a counter
fetch-and-increment (the Rust value holds a reference to the counter,
modelled by its `Entry`) or a shared constant value. -/
inductive Action where
  | increment (e : Entry)
  | applyConstant (v : Value)
deriving DecidableEq, Repr

/-- The `value_actions` scan of `insert_rows`: walk the schema in iteration
order; a missing `needs_value` column is an error; an omitted generatable
column records a constant action (literal default), fails on a non-literal
default, records an increment action (auto-increment with a live counter),
fails when the counter is absent, and fails as ungeneratable otherwise. -/
def computeActionsGo (auto_incs : Counters) (table : String)
    (cols : List String) (acc : Smap Action) :
    ColumnDescriptors → Except EngineError (Smap Action)
  | [] => .ok acc
  | (column, desc) :: rest =>
    if desc.needs_value then
      if !(cols.contains column) then .error (.missingColumn column)
      else computeActionsGo auto_incs table cols acc rest
    else if !(cols.contains column) && desc.should_generate then
      match desc.default with
      | some (.value v) =>
        computeActionsGo auto_incs table cols
          (insertS acc column (.applyConstant v)) rest
      | some .nonLiteral => .error (.unsupportedDefault column)
      | none =>
        if desc.auto_increment then
          match lookupE auto_incs ⟨table, column⟩ with
          | none => .error (.noCounter column)
          | some _ =>
            computeActionsGo auto_incs table cols
              (insertS acc column (.increment ⟨table, column⟩)) rest
        else .error (.ungeneratable column)
    else computeActionsGo auto_incs table cols acc rest

/-- Modelled from the spec (§4.4 step 4a): `InsertOptions::records` builds
one `Record` per row from the supplied column/value pairs (a `BTreeMap`
gathered by inserting each pair). -/
def InsertOptions.records (op : InsertOptions) : List Record :=
  op.values.map
    (fun row => ⟨(op.columns.zip row).foldl (fun m p => insertS m p.1 p.2) []⟩)

/-- Outcome of one validation step: pass, fail with an error value, or
panic (Rust index `metadata[name]` on a missing key). -/
inductive Step where
  | ok
  | fail (e : EngineError)
  | panic
deriving DecidableEq, Repr

/-- The per-row validation loop: every supplied value must match its
column's declared type; the schema lookup itself panics on an unknown name
(unreachable after column validation). -/
def typeCheckRecord (metadata : ColumnDescriptors) : Smap Value → Step
  | [] => .ok
  | (name, value) :: rest =>
    match lookupS metadata name with
    | none => .panic
    | some d =>
      if d.value_matches_type value then typeCheckRecord metadata rest
      else .fail (.typeMismatch name)

/-- Apply the recorded generation actions to one record, in action-map
iteration order: an increment action performs the counter's
fetch-and-increment (`fetch_add(1)`) and inserts the pre-increment value as
a number; a constant action inserts the shared value.  The counter entry
was checked live when the action was recorded, so the `getD` fallback is
unreachable. -/
def applyActions (counters : Counters) (rec : Record) :
    Smap Action → Record × Counters
  | [] => (rec, counters)
  | (column, a) :: rest =>
    match a with
    | .increment e =>
      let v := (lookupE counters e).getD 0
      applyActions (insertE counters e (v + 1))
        ⟨insertS rec.columns column (.number (Int.ofNat v))⟩ rest
    | .applyConstant c =>
      applyActions counters ⟨insertS rec.columns column c⟩ rest

/-- Result of the row loop: the staged write batch and the counter state,
an error with the counter state at failure, or a panic. -/
inductive RowsOut where
  | ok (batch : List (String × Record)) (counters : Counters)
  | err (e : EngineError) (counters : Counters)
  | panic (counters : Counters)
deriving DecidableEq, Repr

/-- The row loop of `insert_rows`: per row, validate the supplied values,
apply the generation actions, derive the storage key, stage the encoded row
in the write batch. -/
def processRows (metadata : ColumnDescriptors) (actions : Smap Action)
    (counters : Counters) (batch : List (String × Record)) :
    List Record → RowsOut
  | [] => .ok batch counters
  | rec :: rest =>
    match typeCheckRecord metadata rec.columns with
    | .fail e => .err e counters
    | .panic => .panic counters
    | .ok =>
      match generate_pk_name (applyActions counters rec actions).1 metadata with
      | none => .panic (applyActions counters rec actions).2
      | some pk =>
        processRows metadata actions (applyActions counters rec actions).2
          (batch ++ [(pk, (applyActions counters rec actions).1)]) rest

/-- How one engine call ends: success, an error value, or a panic. -/
inductive RunResult where
  | ok
  | err (e : EngineError)
  | panic
deriving DecidableEq, Repr

/-- `insert_rows`: load the schema, validate the supplied column names,
record the generation actions, run the row loop, and commit the staged
batch as one atomic write.  `commitOk` models whether the store's final
batch write succeeds; an atomic batch that fails writes nothing.  Returns
the outcome and the engine state after the call (counters mutate in place,
the store only changes at the final commit). -/
def insert_rows (eng : StorageEngine) (op : InsertOptions) (commitOk : Bool) :
    RunResult × StorageEngine :=
  match table_metadata eng op.table with
  | .error e => (.err e, eng)
  | .ok metadata =>
    match op.columns.find? (fun x => !(containsS metadata x)) with
    | some bad => (.err (.unknownColumn bad), eng)
    | none =>
      match computeActionsGo eng.auto_incs op.table op.columns [] metadata with
      | .error e => (.err e, eng)
      | .ok actions =>
        match processRows metadata actions eng.auto_incs [] op.records with
        | .err e cs => (.err e, ⟨eng.db, cs⟩)
        | .panic cs => (.panic, ⟨eng.db, cs⟩)
        | .ok batch cs =>
          if commitOk then
            (.ok,
              ⟨eng.db.write (batch.map (fun p => (op.table, p.1, .row p.2))), cs⟩)
          else (.err .storeWriteError, ⟨eng.db, cs⟩)

/-! ### Concrete fixtures (mirroring the repository's test fixture) -/

/-- A fresh engine over an empty store. -/
def emptyEngine : StorageEngine := ⟨⟨[]⟩, []⟩

/-- The `city` descriptor of the repository's test fixture: text, not
null, defaulting to the literal `'London'`. -/
def cityD : ColumnDescriptor :=
  { datatype := .text, not_null := true,
    default := some (.value (.text "London")) }

/-- The `id` descriptor of the repository's test fixture: unsigned integer,
auto-increment primary key. -/
def idD : ColumnDescriptor :=
  { datatype := .unsignedInteger, not_null := true, unique := true,
    primary_key := true, auto_increment := true }

/-- The `name` descriptor of the repository's test fixture: text, not
null, no default. -/
def nameD : ColumnDescriptor := { datatype := .text, not_null := true }

/-- The `users` fixture from the repository's tests: auto-increment primary
key `id`, mandatory `name`, and `city` defaulting to the literal
`'London'`; listed in `BTreeMap` iteration (name) order. -/
def usersOpts : CreateTableOptions :=
  ⟨"users", [("city", cityD), ("id", idD), ("name", nameD)]⟩

/-- The engine after creating the `users` table on a fresh store. -/
def engUsers : StorageEngine := (create_table emptyEngine usersOpts).2

/-- The insert request `{name: "Daniel"}` against `users`. -/
def insertDaniel : InsertOptions := ⟨"users", ["name"], [[.text "Daniel"]]⟩

/-! ### The spec's row-key policy, stated in its own words -/

/-- The spec's words (§4.4): the column names joined by `/` (no trailing
separator). -/
def joinNames : List String → String
  | [] => ""
  | [n] => n
  | n :: m :: rest => n ++ "/" ++ joinNames (m :: rest)

/-- The spec's words (§4.4): the names of the columns not flagged
`primary_key`, in schema iteration order, joined by `/`. -/
def specRowKey (metadata : ColumnDescriptors) : String :=
  joinNames ((metadata.filter (fun p => !p.2.primary_key)).map Prod.fst)

/-! ### String lemmas -/

theorem strToList_append (a b : String) : (a ++ b).toList = a.toList ++ b.toList := by
  cases a
  cases b
  rfl

theorem strAppend_assoc (a b c : String) : a ++ b ++ c = a ++ (b ++ c) := by
  cases a
  cases b
  cases c
  exact congrArg String.mk (List.append_assoc ..)

theorem strEmpty_append (s : String) : "" ++ s = s := by
  cases s
  rfl

theorem strPop_append_slash (s : String) : strPop (s ++ "/") = s := by
  cases s with
  | mk data =>
    show String.mk ((String.mk data ++ "/").toList.dropLast) = String.mk data
    have h : (String.mk data ++ ("/" : String)).toList = data ++ ['/'] := rfl
    rw [h, List.dropLast_concat]

theorem strPop_empty : strPop "" = "" := rfl

theorem strAppend_slash_ne_empty (a b : String) : a ++ "/" ++ b ≠ "" := by
  intro h
  have h2 : (a ++ "/" ++ b).toList = ([] : List Char) := by rw [h]; rfl
  rw [strToList_append, strToList_append] at h2
  have h3 : ("/" : String).toList = ['/'] := rfl
  rw [h3] at h2
  simp at h2

/-- The accumulator form of `generate_pk_name`'s string building: pushing
each name followed by `/` and popping the final character yields the
`/`-join of the names. -/
theorem strPop_foldl_slash (names : List String) :
    ∀ acc : String,
      strPop (names.foldl (fun a k => a ++ k ++ "/") acc) =
        if names = [] then strPop acc else acc ++ joinNames names := by
  induction names with
  | nil => intro acc; simp
  | cons n rest ih =>
    intro acc
    rw [List.foldl_cons, ih (acc ++ n ++ "/")]
    cases rest with
    | nil => simp [joinNames, strPop_append_slash]
    | cons m rs =>
      rw [if_neg (by simp), if_neg (by simp), joinNames,
          strAppend_assoc (acc ++ n) "/" (joinNames (m :: rs)),
          strAppend_assoc acc n ("/" ++ joinNames (m :: rs)),
          ← strAppend_assoc n "/" (joinNames (m :: rs))]

/-- `generate_pk_name` in closed form: the spec's `/`-join of the
non-primary-key column names when that join is non-empty, the assertion
failure (`none`) when it is empty. -/
theorem generate_pk_name_eq (r : Record) (md : ColumnDescriptors) :
    generate_pk_name r md =
      if specRowKey md = "" then none else some (specRowKey md) := by
  show (if strPop (((md.filter (fun p => !p.2.primary_key)).map Prod.fst).foldl
          (fun acc k => acc ++ k ++ "/") "") = ""
        then none
        else some (strPop (((md.filter (fun p => !p.2.primary_key)).map Prod.fst).foldl
          (fun acc k => acc ++ k ++ "/") ""))) = _
  rw [strPop_foldl_slash ((md.filter (fun p => !p.2.primary_key)).map Prod.fst) ""]
  unfold specRowKey
  cases heq : (md.filter (fun p => !p.2.primary_key)).map Prod.fst with
  | nil => simp [joinNames, strPop_empty]
  | cons n rest => simp [strEmpty_append]

/-- A `/`-join of a list containing a non-empty name is non-empty. -/
theorem joinNames_ne_empty (names : List String) (n : String) (hmem : n ∈ names)
    (hne : n ≠ "") : joinNames names ≠ "" := by
  cases names with
  | nil => cases hmem
  | cons a rest =>
    cases rest with
    | nil =>
      cases hmem with
      | head => exact hne
      | tail _ h => cases h
    | cons b rs => exact strAppend_slash_ne_empty a (joinNames (b :: rs))

/-- C2: for every table schema and every row record, the derived storage
key is exactly the names of the non-`primary_key` columns in schema
iteration order joined by `/` with the trailing separator removed (the
assertion fires when that join is empty), and the key does not depend on
the row record at all. -/
theorem c2_row_key_schema_only (md : ColumnDescriptors) (r : Record) :
    generate_pk_name r md =
        (if specRowKey md = "" then none else some (specRowKey md)) ∧
      ∀ r₂ : Record, generate_pk_name r md = generate_pk_name r₂ md :=
  ⟨generate_pk_name_eq r md, fun r₂ => (generate_pk_name_eq r md).trans
    (generate_pk_name_eq r₂ md).symm⟩

/-! ### C9: the defensive assertion in row-key derivation -/

/-- A one-column schema whose only column is not a primary key but has an
empty name. -/
def emptyNameMd : ColumnDescriptors := [("", { datatype := Datatype.text })]

/-- C9 counterexample: a schema with a non-primary-key column (named `""`)
on which the non-empty-key assertion still fires, refuting the claim that
the assertion cannot fire whenever some column is not a primary key. -/
theorem c9_empty_name_assertion :
    lookupS emptyNameMd "" = some { datatype := Datatype.text } ∧
      ColumnDescriptor.primary_key { datatype := Datatype.text } = false ∧
      generate_pk_name ⟨[]⟩ emptyNameMd = none :=
  ⟨rfl, rfl, rfl⟩

/-- C9 (amended): if every column of the schema is a primary key, row-key
derivation fails by the defensive assertion (`none`, a panic, not an error
value); and for every schema with at least one non-primary-key column
whose name is non-empty, the assertion cannot fire. -/
theorem c9_assertion_amended :
    (∀ (md : ColumnDescriptors) (r : Record),
        (∀ p ∈ md, p.2.primary_key = true) → generate_pk_name r md = none) ∧
      ∀ (md : ColumnDescriptors) (r : Record) (p : String × ColumnDescriptor),
        p ∈ md → p.2.primary_key = false → p.1 ≠ "" →
        (generate_pk_name r md).isSome = true := by
  constructor
  · intro md r hall
    rw [generate_pk_name_eq]
    have hfilter : md.filter (fun p => !p.2.primary_key) = [] := by
      rw [List.filter_eq_nil_iff]
      intro p hp
      simp [hall p hp]
    simp [specRowKey, hfilter, joinNames]
  · intro md r p hmem hpk hne
    rw [generate_pk_name_eq]
    have hmemf : p ∈ md.filter (fun q => !q.2.primary_key) := by
      rw [List.mem_filter]
      exact ⟨hmem, by simp [hpk]⟩
    have hmemn : p.1 ∈ (md.filter (fun q => !q.2.primary_key)).map Prod.fst :=
      List.mem_map_of_mem Prod.fst hmemf
    have hk : specRowKey md ≠ "" := joinNames_ne_empty _ p.1 hmemn hne
    simp [specRowKey] at hk
    simp [specRowKey, hk]

/-- C9 amended, witnessed at concrete schemas: an all-primary-key schema
panics, and the `users` schema (with non-primary-key columns `city` and
`name`) derives a key. -/
theorem c9_assertion_witness :
    generate_pk_name ⟨[]⟩ [("id", idD)] = none ∧
      (generate_pk_name ⟨[]⟩ usersOpts.columns).isSome = true :=
  ⟨c9_assertion_amended.1 _ ⟨[]⟩ (by intro p hp; simp at hp; rw [hp]; rfl),
    c9_assertion_amended.2 usersOpts.columns ⟨[]⟩ ("name", nameD)
      (by simp [usersOpts]) rfl (by simp)⟩

/-! ### Map lemmas -/

theorem lookupS_cons {α : Type} (k0 : String) (v0 : α) (rest : Smap α)
    (key : String) :
    lookupS ((k0, v0) :: rest) key =
      if k0 = key then some v0 else lookupS rest key := rfl

theorem lookupE_cons (e0 : Entry) (n0 : Nat) (rest : Counters) (key : Entry) :
    lookupE ((e0, n0) :: rest) key =
      if e0 = key then some n0 else lookupE rest key := rfl

theorem insertE_cons (e0 : Entry) (n0 : Nat) (rest : Counters) (e : Entry)
    (n : Nat) :
    insertE ((e0, n0) :: rest) e n =
      if e0 = e then (e, n) :: rest else (e0, n0) :: insertE rest e n := rfl

theorem lookupS_mem {α : Type} (l : Smap α) (k : String) (v : α)
    (h : lookupS l k = some v) : (k, v) ∈ l := by
  induction l with
  | nil => cases h
  | cons p rest ih =>
    obtain ⟨p1, p2⟩ := p
    rw [lookupS] at h
    by_cases hk : p1 = k
    · rw [if_pos hk] at h
      cases h
      cases hk
      exact List.mem_cons_self _ _
    · rw [if_neg hk] at h
      exact List.mem_cons_of_mem _ (ih h)

theorem lookupS_append_right {α : Type} (l : Smap α) (k : String) (v : α)
    (h : lookupS l k = none) : lookupS (l ++ [(k, v)]) k = some v := by
  induction l with
  | nil => simp [lookupS]
  | cons p rest ih =>
    rw [lookupS] at h
    by_cases hk : p.1 = k
    · rw [if_pos hk] at h
      cases h
    · rw [List.cons_append, lookupS, if_neg hk]
      exact ih (by rw [if_neg hk] at h; exact h)

theorem lookupS_map_put (l : Smap (Smap StoredVal)) (n k : String) (v : StoredVal) :
    lookupS (l.map (fun p => if p.1 = n then (p.1, nsPut p.2 k v) else p)) n =
      (lookupS l n).map (fun ns => nsPut ns k v) := by
  induction l with
  | nil => rfl
  | cons p rest ih =>
    obtain ⟨k0, ns0⟩ := p
    rw [List.map_cons]
    dsimp only
    by_cases hn : k0 = n
    · subst hn
      rw [if_pos rfl, lookupS_cons, lookupS_cons, if_pos rfl, if_pos rfl]
      rfl
    · rw [if_neg hn, lookupS_cons, lookupS_cons, if_neg hn, if_neg hn]
      exact ih

theorem cf_handle_put (db : DB) (n k : String) (v : StoredVal) :
    (db.put_cf n k v).cf_handle n = (db.cf_handle n).map (fun ns => nsPut ns k v) :=
  lookupS_map_put db.cfs n k v

theorem lookupE_insertE_self (m : Counters) (e : Entry) (v : Nat) :
    lookupE (insertE m e v) e = some v := by
  induction m with
  | nil =>
    show lookupE [(e, v)] e = some v
    rw [lookupE_cons, if_pos rfl]
  | cons p rest ih =>
    obtain ⟨e0, n0⟩ := p
    rw [insertE_cons]
    by_cases he : e0 = e
    · subst he
      rw [if_pos rfl, lookupE_cons, if_pos rfl]
    · rw [if_neg he, lookupE_cons, if_neg he]
      exact ih

theorem lookupE_insertE_ne (m : Counters) (e : Entry) (v : Nat) (e' : Entry)
    (h : e' ≠ e) : lookupE (insertE m e v) e' = lookupE m e' := by
  induction m with
  | nil =>
    show lookupE [(e, v)] e' = lookupE [] e'
    rw [lookupE_cons, if_neg (fun hh => h hh.symm)]
  | cons p rest ih =>
    obtain ⟨e0, n0⟩ := p
    rw [insertE_cons]
    by_cases he : e0 = e
    · subst he
      rw [if_pos rfl, lookupE_cons, lookupE_cons,
        if_neg (fun hh => h hh.symm), if_neg (fun hh => h hh.symm)]
    · rw [if_neg he, lookupE_cons, lookupE_cons]
      by_cases hp : e0 = e'
      · rw [if_pos hp, if_pos hp]
      · rw [if_neg hp, if_neg hp]
        exact ih

/-! ### C3: errors leave the store untouched -/

/-- C3: whenever `insert_rows` returns an error — schema lookup, column
validation, generation resolution, per-row type check, or the final commit
itself — the store is unchanged: rows reach the store only through the
single batch write of a fully successful call. -/
theorem c3_insert_error_leaves_store (eng : StorageEngine) (op : InsertOptions)
    (commitOk : Bool) (e : EngineError) (eng' : StorageEngine)
    (h : insert_rows eng op commitOk = (.err e, eng')) : eng'.db = eng.db := by
  unfold insert_rows at h
  split at h
  · exact (congrArg (fun p => StorageEngine.db p.2) h).symm
  · split at h
    · exact (congrArg (fun p => StorageEngine.db p.2) h).symm
    · split at h
      · exact (congrArg (fun p => StorageEngine.db p.2) h).symm
      · split at h
        · exact (congrArg (fun p => StorageEngine.db p.2) h).symm
        · exact RunResult.noConfusion (congrArg Prod.fst h)
        · split at h
          · exact RunResult.noConfusion (congrArg Prod.fst h)
          · exact (congrArg (fun p => StorageEngine.db p.2) h).symm

/-- A two-row insert whose second row carries a boolean for the text
column `name`. -/
def opTwoRows : InsertOptions := ⟨"users", ["name"], [[.text "D"], [.boolean false]]⟩

/-- C3 witnessed on a concrete failing call: the two-row insert fails with
a type mismatch on its second row and the store is unchanged. -/
theorem c3_insert_error_leaves_store_witness :
    (⟨engUsers.db, [(⟨"users", "id"⟩, 2)]⟩ : StorageEngine).db = engUsers.db :=
  c3_insert_error_leaves_store engUsers opTwoRows true (.typeMismatch "name")
    ⟨engUsers.db, [(⟨"users", "id"⟩, 2)]⟩ rfl

/-! ### C4: counter seeding and fetch-then-add -/

theorem seed_preserve (t : String) (l : ColumnDescriptors) (acc : Counters)
    (e : Entry) (h : lookupE acc e = some 1) :
    lookupE (l.foldl
      (fun acc p => if p.2.auto_increment then insertE acc ⟨t, p.1⟩ 1 else acc)
      acc) e = some 1 := by
  induction l generalizing acc with
  | nil => exact h
  | cons p rest ih =>
    rw [List.foldl_cons]
    apply ih
    by_cases ha : p.2.auto_increment
    · rw [if_pos ha]
      by_cases he : e = (⟨t, p.1⟩ : Entry)
      · rw [he, lookupE_insertE_self]
      · rw [lookupE_insertE_ne _ _ _ _ he]
        exact h
    · rw [if_neg ha]
      exact h

theorem seed_mem (t : String) (l : ColumnDescriptors) (acc : Counters)
    (col : String) (d : ColumnDescriptor) (hmem : (col, d) ∈ l)
    (ha : d.auto_increment = true) :
    lookupE (l.foldl
      (fun acc p => if p.2.auto_increment then insertE acc ⟨t, p.1⟩ 1 else acc)
      acc) ⟨t, col⟩ = some 1 := by
  induction l generalizing acc with
  | nil => cases hmem
  | cons p rest ih =>
    rw [List.foldl_cons]
    cases hmem with
    | head =>
      apply seed_preserve
      dsimp only
      rw [if_pos ha]
      exact lookupE_insertE_self acc ⟨t, col⟩ 1
    | tail _ hmem₂ =>
      apply ih
      exact hmem₂

/-- C4: `create_table` seeds a counter at 1 for every column flagged
auto-increment, and on the concrete `users` fixture each insert that omits
`id` is assigned the counter's pre-increment value (fetch-then-add): the
two sequential single-row inserts store `id` values 1 then 2, with the
counter reading 2 after the first insert and 3 after the second. -/
theorem c4_counter_seed_and_fetch_add :
    (∀ (eng : StorageEngine) (ct : CreateTableOptions) (col : String)
        (d : ColumnDescriptor),
        (col, d) ∈ ct.columns → d.auto_increment = true →
        (create_table eng ct).1 = none →
        lookupE (create_table eng ct).2.auto_incs ⟨ct.name, col⟩ = some 1) ∧
      lookupE engUsers.auto_incs ⟨"users", "id"⟩ = some 1 ∧
      (insert_rows engUsers insertDaniel true).1 = .ok ∧
      DB.get_cf (insert_rows engUsers insertDaniel true).2.db "users" "city/name" =
        some (.row ⟨[("city", .text "London"), ("id", .number 1),
          ("name", .text "Daniel")]⟩) ∧
      lookupE (insert_rows engUsers insertDaniel true).2.auto_incs
        ⟨"users", "id"⟩ = some 2 ∧
      (insert_rows (insert_rows engUsers insertDaniel true).2 insertDaniel true).1 =
        .ok ∧
      DB.get_cf (insert_rows (insert_rows engUsers insertDaniel true).2
          insertDaniel true).2.db "users" "city/name" =
        some (.row ⟨[("city", .text "London"), ("id", .number 2),
          ("name", .text "Daniel")]⟩) ∧
      lookupE (insert_rows (insert_rows engUsers insertDaniel true).2
          insertDaniel true).2.auto_incs ⟨"users", "id"⟩ = some 3 := by
  refine ⟨?_, rfl, rfl, rfl, rfl, rfl, rfl, rfl⟩
  intro eng ct col d hmem ha hok
  cases hv : validate_table_options eng ct with
  | error e =>
    exfalso
    unfold create_table at hok
    rw [hv] at hok
    cases hok
  | ok u =>
    cases u
    cases hc : eng.db.create_cf ct.name with
    | none =>
      exfalso
      unfold create_table at hok
      rw [hv, hc] at hok
      cases hok
    | some db1 =>
      unfold create_table
      rw [hv, hc]
      exact seed_mem ct.name ct.columns eng.auto_incs col d hmem ha

/-- C4 witnessed: the general seeding statement applied to the `users`
fixture's `id` column. -/
theorem c4_counter_seed_witness :
    lookupE (create_table emptyEngine usersOpts).2.auto_incs ⟨"users", "id"⟩ =
      some 1 :=
  c4_counter_seed_and_fetch_add.1 emptyEngine usersOpts "id" idD
    (by simp [usersOpts]) rfl rfl

/-! ### C5: schema persistence round-trips -/

theorem validateFks_ok_of_noFk (eng : StorageEngine) (cols : ColumnDescriptors)
    (h : ∀ p ∈ cols, p.2.foreign_key = none) : validateFks eng cols = .ok () := by
  induction cols with
  | nil => rfl
  | cons p rest ih =>
    rw [validateFks, h p (List.mem_cons_self p rest)]
    exact ih (fun q hq => h q (List.mem_cons_of_mem p hq))

/-- C5: for every `CreateTableOptions` without foreign keys targeting a
fresh table name, `create_table` succeeds and `table_metadata` on the new
table returns exactly the input columns map. -/
theorem c5_schema_round_trip (eng : StorageEngine) (ct : CreateTableOptions)
    (hfk : ∀ p ∈ ct.columns, p.2.foreign_key = none)
    (hfresh : eng.db.cf_handle ct.name = none) :
    (create_table eng ct).1 = none ∧
      table_metadata (create_table eng ct).2 ct.name = .ok ct.columns := by
  have hv : validate_table_options eng ct = .ok () :=
    validateFks_ok_of_noFk eng ct.columns hfk
  have hc : eng.db.create_cf ct.name = some ⟨eng.db.cfs ++ [(ct.name, [])]⟩ := by
    unfold DB.create_cf
    rw [hfresh]
  unfold create_table
  rw [hv, hc]
  refine ⟨rfl, ?_⟩
  have h1 : DB.cf_handle ⟨eng.db.cfs ++ [(ct.name, [])]⟩ ct.name = some [] :=
    lookupS_append_right eng.db.cfs ct.name [] hfresh
  have h2 : (DB.put_cf ⟨eng.db.cfs ++ [(ct.name, [])]⟩ ct.name TABLE_METADATA_KEY
      (.meta ct.columns)).cf_handle ct.name =
      some [(TABLE_METADATA_KEY, .meta ct.columns)] := by
    rw [cf_handle_put, h1]
    rfl
  unfold table_metadata
  rw [h2]
  rfl

/-- C5 witnessed: creating the `users` fixture on a fresh store and reading
the metadata back returns the fixture's columns. -/
theorem c5_schema_round_trip_witness :
    (create_table emptyEngine usersOpts).1 = none ∧
      table_metadata (create_table emptyEngine usersOpts).2 "users" =
        .ok usersOpts.columns :=
  c5_schema_round_trip emptyEngine usersOpts
    (by intro p hp; simp [usersOpts] at hp
        rcases hp with h | h | h <;> rw [h] <;> rfl)
    rfl

/-! ### C6: foreign-key validation -/

/-- The spec's §7 `ForeignKeyError` family: missing target table (no
namespace, or no persisted schema record, the spec's `TableNotFoundError`
for the target), missing target column, or target column not a primary
key. -/
def IsForeignKeyError : EngineError → Prop
  | .tableNotFound _ => True
  | .noMetadata _ => True
  | .foreignKeyColumnMissing _ _ => True
  | .foreignKeyNotPrimary _ _ => True
  | _ => False

/-- A store in which the reserved metadata key of every namespace holds a
schema record — true of every store the engine itself produces. -/
def DBWellFormed (db : DB) : Prop :=
  ∀ p ∈ db.cfs, ∀ v, lookupS p.2 TABLE_METADATA_KEY = some v →
    ∃ m, v = StoredVal.meta m

theorem table_metadata_error_shape (eng : StorageEngine) (t : String)
    (e : EngineError) (hwf : DBWellFormed eng.db)
    (h : table_metadata eng t = .error e) : IsForeignKeyError e := by
  unfold table_metadata at h
  split at h
  · cases h
    trivial
  · rename_i ns hcf
    split at h
    · cases h
      trivial
    · cases h
    · rename_i r hlk
      cases h
      obtain ⟨m, hm⟩ := hwf (t, ns) (lookupS_mem eng.db.cfs t ns hcf) _ hlk
      cases hm

theorem validateFks_error_isFk (eng : StorageEngine) :
    ∀ (cols : ColumnDescriptors) (e : EngineError), DBWellFormed eng.db →
      validateFks eng cols = .error e → IsForeignKeyError e := by
  intro cols
  induction cols with
  | nil => intro e _ h; cases h
  | cons q rest ih =>
    obtain ⟨qn, props⟩ := q
    intro e hwf h
    rw [validateFks] at h
    split at h
    · exact ih e hwf h
    · rename_i t c hfk0
      split at h
      · rename_i e1 hmd
        cases h
        exact table_metadata_error_shape eng t _ hwf hmd
      · rename_i md hmd
        split at h
        · cases h
          trivial
        · rename_i desc hlk
          split at h
          · exact ih e hwf h
          · cases h
            trivial

theorem validateFks_ok_sound (eng : StorageEngine) :
    ∀ cols : ColumnDescriptors, validateFks eng cols = .ok () →
      ∀ p ∈ cols, ∀ t c, p.2.foreign_key = some (t, c) →
        ∃ md d, table_metadata eng t = .ok md ∧ lookupS md c = some d ∧
          d.primary_key = true := by
  intro cols
  induction cols with
  | nil => intro _ p hp; cases hp
  | cons q rest ih =>
    obtain ⟨qn, props⟩ := q
    intro h p hp t c hfk
    rw [validateFks] at h
    split at h
    · rename_i hfk0
      rcases List.mem_cons.mp hp with heq | htail
      · subst heq
        have hfk2 : props.foreign_key = some (t, c) := hfk
        rw [hfk0] at hfk2
        cases hfk2
      · exact ih h p htail t c hfk
    · rename_i t0 cc hfk0
      split at h
      · cases h
      · rename_i md hmd
        split at h
        · cases h
        · rename_i desc hlk
          split at h
          · rename_i hpk
            rcases List.mem_cons.mp hp with heq | htail
            · subst heq
              have hfk2 : props.foreign_key = some (t, c) := hfk
              rw [hfk0] at hfk2
              cases hfk2
              exact ⟨md, desc, hmd, hlk, hpk⟩
            · exact ih h p htail t c hfk
          · cases h

/-- C6: whenever some column's foreign key targets a table with no
persisted schema, a column absent from the target's schema, or a target
column that is not a primary key, `create_table` fails with an error of the
`ForeignKeyError` family, and — the validation running before any
creation — the engine (namespaces, metadata, counters) is untouched. -/
theorem c6_foreign_key_validation (eng : StorageEngine) (ct : CreateTableOptions)
    (hwf : DBWellFormed eng.db)
    (hbad : ∃ p ∈ ct.columns, ∃ t c, p.2.foreign_key = some (t, c) ∧
      (eng.db.cf_handle t = none ∨
        (∃ md, table_metadata eng t = .ok md ∧ lookupS md c = none) ∨
        (∃ md d, table_metadata eng t = .ok md ∧ lookupS md c = some d ∧
          d.primary_key = false))) :
    ∃ e, IsForeignKeyError e ∧ create_table eng ct = (some e, eng) := by
  cases hv : validate_table_options eng ct with
  | ok u =>
    exfalso
    cases u
    obtain ⟨p, hp, t, c, hfk, hcase⟩ := hbad
    obtain ⟨md, d, hmd, hlk, hpk⟩ :=
      validateFks_ok_sound eng ct.columns hv p hp t c hfk
    rcases hcase with h1 | ⟨md2, hmd2, hlk2⟩ | ⟨md2, d2, hmd2, hlk2, hpk2⟩
    · unfold table_metadata at hmd
      rw [h1] at hmd
      cases hmd
    · rw [hmd] at hmd2
      cases hmd2
      rw [hlk] at hlk2
      cases hlk2
    · rw [hmd] at hmd2
      cases hmd2
      rw [hlk] at hlk2
      cases hlk2
      rw [hpk] at hpk2
      cases hpk2
  | error e =>
    refine ⟨e, validateFks_error_isFk eng ct.columns e hwf hv, ?_⟩
    unfold create_table
    rw [hv]

/-- A column carrying a foreign key into a table that does not exist. -/
def fkD : ColumnDescriptor :=
  { datatype := .unsignedInteger, foreign_key := some ("missing", "id") }

/-- A create-table request whose only column references the nonexistent
table `missing`. -/
def badFkOpts : CreateTableOptions := ⟨"orders", [("user_id", fkD)]⟩

/-- C6 witnessed: creating `orders` with a foreign key into the
nonexistent table `missing` fails with a `ForeignKeyError`-family error and
leaves the engine untouched. -/
theorem c6_foreign_key_validation_witness :
    ∃ e, IsForeignKeyError e ∧
      create_table emptyEngine badFkOpts = (some e, emptyEngine) :=
  c6_foreign_key_validation emptyEngine badFkOpts
    (by intro p hp v hv; cases hp)
    ⟨("user_id", fkD), List.mem_cons_self _ _,
      "missing", "id", rfl, Or.inl rfl⟩

/-! ### Boolean facts about the derived column predicates -/

theorem needs_value_false_should_generate (d : ColumnDescriptor)
    (h : d.needs_value = false) : d.should_generate = true := by
  unfold ColumnDescriptor.needs_value at h
  unfold ColumnDescriptor.should_generate
  cases hd : d.default <;> cases ha : d.auto_increment <;> simp_all

theorem needs_value_true_not_auto (d : ColumnDescriptor)
    (h : d.needs_value = true) : d.auto_increment = false := by
  unfold ColumnDescriptor.needs_value at h
  cases hd : d.default <;> cases ha : d.auto_increment <;> simp_all

theorem default_none_needs_false_auto (d : ColumnDescriptor)
    (hd : d.default = none) (h : d.needs_value = false) :
    d.auto_increment = true := by
  unfold ColumnDescriptor.needs_value at h
  cases ha : d.auto_increment <;> simp_all

/-! ### The action scan -/

theorem lookupE_nil (e : Entry) : lookupE [] e = none := rfl

theorem computeActionsGo_cons (incs : Counters) (t : String) (cols : List String)
    (acc : Smap Action) (qn : String) (desc : ColumnDescriptor)
    (rest : ColumnDescriptors) :
    computeActionsGo incs t cols acc ((qn, desc) :: rest) =
      if desc.needs_value then
        (if !(cols.contains qn) then .error (.missingColumn qn)
         else computeActionsGo incs t cols acc rest)
      else if !(cols.contains qn) && desc.should_generate then
        (match desc.default with
         | some (.value v) =>
           computeActionsGo incs t cols (insertS acc qn (.applyConstant v)) rest
         | some .nonLiteral => .error (.unsupportedDefault qn)
         | none =>
           if desc.auto_increment then
             (match lookupE incs ⟨t, qn⟩ with
              | none => .error (.noCounter qn)
              | some _ =>
                computeActionsGo incs t cols
                  (insertS acc qn (.increment ⟨t, qn⟩)) rest)
           else .error (.ungeneratable qn))
      else computeActionsGo incs t cols acc rest := rfl

/-- If every omitted generatable column can actually be generated (literal
default, or auto-increment with a live counter) while some `needs_value`
column is omitted, the action scan stops at a missing mandatory column. -/
theorem computeActionsGo_missing (incs : Counters) (t : String)
    (cols : List String) :
    ∀ (l : ColumnDescriptors) (acc : Smap Action),
      (∀ p ∈ l, p.2.needs_value = false → cols.contains p.1 = false →
        (∃ v, p.2.default = some (.value v)) ∨
        (p.2.default = none ∧ p.2.auto_increment = true ∧
          (lookupE incs ⟨t, p.1⟩).isSome = true)) →
      (∃ p ∈ l, p.2.needs_value = true ∧ cols.contains p.1 = false) →
      ∃ c, (∃ d, (c, d) ∈ l ∧ d.needs_value = true ∧ cols.contains c = false) ∧
        computeActionsGo incs t cols acc l = .error (.missingColumn c) := by
  intro l
  induction l with
  | nil =>
    intro acc _ hex
    obtain ⟨p, hp, _⟩ := hex
    cases hp
  | cons q rest ih =>
    obtain ⟨qn, desc⟩ := q
    intro acc hres hex
    rw [computeActionsGo_cons]
    have hres2 : ∀ p ∈ rest, p.2.needs_value = false → cols.contains p.1 = false →
        (∃ v, p.2.default = some (.value v)) ∨
        (p.2.default = none ∧ p.2.auto_increment = true ∧
          (lookupE incs ⟨t, p.1⟩).isSome = true) :=
      fun p hp => hres p (List.mem_cons_of_mem _ hp)
    cases hn : desc.needs_value with
    | true =>
      cases hc : cols.contains qn with
      | true =>
        have hex2 : ∃ p ∈ rest, p.2.needs_value = true ∧
            cols.contains p.1 = false := by
          obtain ⟨p, hp, hp1, hp2⟩ := hex
          rcases List.mem_cons.mp hp with heq | htail
          · subst heq
            have hp2c : cols.contains qn = false := hp2
            rw [hc] at hp2c
            cases hp2c
          · exact ⟨p, htail, hp1, hp2⟩
        obtain ⟨c, ⟨d, hd, hd1, hd2⟩, heq⟩ := ih acc hres2 hex2
        exact ⟨c, ⟨d, List.mem_cons_of_mem _ hd, hd1, hd2⟩, heq⟩
      | false =>
        exact ⟨qn, ⟨desc, List.mem_cons_self _ _, hn, hc⟩, rfl⟩
    | false =>
      have hex2 : ∃ p ∈ rest, p.2.needs_value = true ∧
          cols.contains p.1 = false := by
        obtain ⟨p, hp, hp1, hp2⟩ := hex
        rcases List.mem_cons.mp hp with heq | htail
        · subst heq
          have hp1c : desc.needs_value = true := hp1
          rw [hn] at hp1c
          cases hp1c
        · exact ⟨p, htail, hp1, hp2⟩
      cases hc : cols.contains qn with
      | true =>
        obtain ⟨c, ⟨d, hd, hd1, hd2⟩, heq⟩ := ih acc hres2 hex2
        exact ⟨c, ⟨d, List.mem_cons_of_mem _ hd, hd1, hd2⟩, heq⟩
      | false =>
        rw [needs_value_false_should_generate desc hn]
        rcases hres (qn, desc) (List.mem_cons_self _ _) hn hc with
          ⟨v, hv⟩ | ⟨hdef, hauto, hcnt⟩
        · have hv2 : desc.default = some (.value v) := hv
          rw [hv2]
          obtain ⟨c, ⟨d, hd, hd1, hd2⟩, heq⟩ :=
            ih (insertS acc qn (.applyConstant v)) hres2 hex2
          exact ⟨c, ⟨d, List.mem_cons_of_mem _ hd, hd1, hd2⟩, heq⟩
        · have hdef2 : desc.default = none := hdef
          have hauto2 : desc.auto_increment = true := hauto
          rw [hdef2, hauto2]
          obtain ⟨n, hn2⟩ := Option.isSome_iff_exists.mp hcnt
          rw [hn2]
          obtain ⟨c, ⟨d, hd, hd1, hd2⟩, heq⟩ :=
            ih (insertS acc qn (.increment ⟨t, qn⟩)) hres2 hex2
          exact ⟨c, ⟨d, List.mem_cons_of_mem _ hd, hd1, hd2⟩, heq⟩

/-- On an engine with no live counters, if every supplied column exists,
every mandatory column is supplied and every omitted default is a literal,
the action scan stops at the first omitted auto-increment column with a
`NoCounterError`. -/
theorem computeActionsGo_noCounter (t : String) (cols : List String) :
    ∀ (l : ColumnDescriptors) (acc : Smap Action),
      (∀ p ∈ l, p.2.needs_value = true → cols.contains p.1 = true) →
      (∀ p ∈ l, cols.contains p.1 = false →
        p.2.default = none ∨ ∃ v, p.2.default = some (.value v)) →
      (∃ p ∈ l, p.2.auto_increment = true ∧ p.2.default = none ∧
        cols.contains p.1 = false) →
      ∃ c, (∃ d, (c, d) ∈ l ∧ d.auto_increment = true ∧
          cols.contains c = false) ∧
        computeActionsGo [] t cols acc l = .error (.noCounter c) := by
  intro l
  induction l with
  | nil =>
    intro acc _ _ hex
    obtain ⟨p, hp, _⟩ := hex
    cases hp
  | cons q rest ih =>
    obtain ⟨qn, desc⟩ := q
    intro acc hneed hdefs hex
    rw [computeActionsGo_cons]
    have hneed2 : ∀ p ∈ rest, p.2.needs_value = true → cols.contains p.1 = true :=
      fun p hp => hneed p (List.mem_cons_of_mem _ hp)
    have hdefs2 : ∀ p ∈ rest, cols.contains p.1 = false →
        p.2.default = none ∨ ∃ v, p.2.default = some (.value v) :=
      fun p hp => hdefs p (List.mem_cons_of_mem _ hp)
    cases hn : desc.needs_value with
    | true =>
      have hc : cols.contains qn = true := hneed (qn, desc) (List.mem_cons_self _ _) hn
      rw [hc]
      have hex2 : ∃ p ∈ rest, p.2.auto_increment = true ∧ p.2.default = none ∧
          cols.contains p.1 = false := by
        obtain ⟨p, hp, hp1, hp2, hp3⟩ := hex
        rcases List.mem_cons.mp hp with heq | htail
        · subst heq
          have hp3c : cols.contains qn = false := hp3
          rw [hc] at hp3c
          cases hp3c
        · exact ⟨p, htail, hp1, hp2, hp3⟩
      obtain ⟨c, ⟨d, hd, hd1, hd2⟩, heq⟩ := ih acc hneed2 hdefs2 hex2
      exact ⟨c, ⟨d, List.mem_cons_of_mem _ hd, hd1, hd2⟩, heq⟩
    | false =>
      cases hc : cols.contains qn with
      | true =>
        have hex2 : ∃ p ∈ rest, p.2.auto_increment = true ∧ p.2.default = none ∧
            cols.contains p.1 = false := by
          obtain ⟨p, hp, hp1, hp2, hp3⟩ := hex
          rcases List.mem_cons.mp hp with heq | htail
          · subst heq
            have hp3c : cols.contains qn = false := hp3
            rw [hc] at hp3c
            cases hp3c
          · exact ⟨p, htail, hp1, hp2, hp3⟩
        obtain ⟨c, ⟨d, hd, hd1, hd2⟩, heq⟩ := ih acc hneed2 hdefs2 hex2
        exact ⟨c, ⟨d, List.mem_cons_of_mem _ hd, hd1, hd2⟩, heq⟩
      | false =>
        rw [needs_value_false_should_generate desc hn]
        rcases hdefs (qn, desc) (List.mem_cons_self _ _) hc with hdef | ⟨v, hv⟩
        · have hdef2 : desc.default = none := hdef
          have hauto : desc.auto_increment = true :=
            default_none_needs_false_auto desc hdef2 hn
          rw [hdef2, hauto]
          exact ⟨qn, ⟨desc, List.mem_cons_self _ _, hauto, hc⟩, rfl⟩
        · have hv2 : desc.default = some (.value v) := hv
          rw [hv2]
          have hex2 : ∃ p ∈ rest, p.2.auto_increment = true ∧ p.2.default = none ∧
              cols.contains p.1 = false := by
            obtain ⟨p, hp, hp1, hp2, hp3⟩ := hex
            rcases List.mem_cons.mp hp with heq | htail
            · subst heq
              have hp2c : desc.default = none := hp2
              rw [hv2] at hp2c
              cases hp2c
            · exact ⟨p, htail, hp1, hp2, hp3⟩
          obtain ⟨c, ⟨d, hd, hd1, hd2⟩, heq⟩ :=
            ih (insertS acc qn (.applyConstant v)) hneed2 hdefs2 hex2
          exact ⟨c, ⟨d, List.mem_cons_of_mem _ hd, hd1, hd2⟩, heq⟩

/-! ### Lifting action-scan errors to `insert_rows` -/

theorem find?_none_of_contains (md : ColumnDescriptors) (cols : List String)
    (h : ∀ c ∈ cols, containsS md c = true) :
    cols.find? (fun x => !(containsS md x)) = none := by
  rw [List.find?_eq_none]
  intro x hx
  simp [h x hx]

theorem insert_rows_action_error (eng : StorageEngine) (op : InsertOptions)
    (commitOk : Bool) (md : ColumnDescriptors) (e : EngineError)
    (hmd : table_metadata eng op.table = .ok md)
    (hfind : op.columns.find? (fun x => !(containsS md x)) = none)
    (hact : computeActionsGo eng.auto_incs op.table op.columns [] md = .error e) :
    insert_rows eng op commitOk = (.err e, eng) := by
  simp only [insert_rows, hmd, hfind, hact]

/-! ### C7: missing mandatory columns -/

/-- C7 counterexample: a request whose supplied list names an unknown
column while the mandatory `name` column is also missing fails with
`UnknownColumnError`, not `MissingColumnError` — the unknown-column check
runs first. -/
theorem c7_missing_column_preempted :
    table_metadata engUsers "users" = .ok usersOpts.columns ∧
      lookupS usersOpts.columns "name" = some nameD ∧
      nameD.needs_value = true ∧
      (["bogus"] : List String).contains "name" = false ∧
      insert_rows engUsers ⟨"users", ["bogus"], [[.text "x"]]⟩ true =
        (.err (.unknownColumn "bogus"), engUsers) :=
  ⟨rfl, rfl, rfl, rfl, rfl⟩

/-- C7 (amended): if additionally every supplied column exists in the
schema and every omitted generatable column actually resolves (literal
default, or auto-increment with a live counter), then an insert omitting a
`needs_value` column fails with `MissingColumnError` for such a column, the
engine (store and counters) unchanged. -/
theorem c7_missing_column_amended (eng : StorageEngine) (op : InsertOptions)
    (md : ColumnDescriptors) (commitOk : Bool)
    (hmd : table_metadata eng op.table = .ok md)
    (hcols : ∀ c ∈ op.columns, containsS md c = true)
    (hres : ∀ p ∈ md, p.2.needs_value = false → op.columns.contains p.1 = false →
      (∃ v, p.2.default = some (.value v)) ∨
      (p.2.default = none ∧ p.2.auto_increment = true ∧
        (lookupE eng.auto_incs ⟨op.table, p.1⟩).isSome = true))
    (hex : ∃ p ∈ md, p.2.needs_value = true ∧ op.columns.contains p.1 = false) :
    ∃ c, (∃ d, (c, d) ∈ md ∧ d.needs_value = true ∧
        op.columns.contains c = false) ∧
      insert_rows eng op commitOk = (.err (.missingColumn c), eng) := by
  obtain ⟨c, hprops, heq⟩ :=
    computeActionsGo_missing eng.auto_incs op.table op.columns md [] hres hex
  exact ⟨c, hprops,
    insert_rows_action_error eng op commitOk md _ hmd
      (find?_none_of_contains md op.columns hcols) heq⟩

/-- C7 amended witnessed: supplying only `city` to `users` (the counter for
`id` being live) fails with a missing-column error for a mandatory column
(`name`). -/
theorem c7_missing_column_witness :
    ∃ c, (∃ d, (c, d) ∈ usersOpts.columns ∧ d.needs_value = true ∧
        (["city"] : List String).contains c = false) ∧
      insert_rows engUsers ⟨"users", ["city"], [[.text "London"]]⟩ true =
        (.err (.missingColumn c), engUsers) :=
  c7_missing_column_amended engUsers ⟨"users", ["city"], [[.text "London"]]⟩
    usersOpts.columns true rfl
    (by
      intro c hc
      have hc2 := List.mem_singleton.mp hc
      subst hc2
      rfl)
    (by
      intro p hp h1 h2
      have hp2 : p ∈ [("city", cityD), ("id", idD), ("name", nameD)] := hp
      fin_cases hp2
      · exact absurd h2 (by decide)
      · exact Or.inr ⟨rfl, rfl, rfl⟩
      · exact absurd h1 (by decide))
    ⟨("name", nameD), by decide, rfl, rfl⟩

/-! ### C8: reopening a store loses counters -/

/-- A pre-existing table with a mandatory `aaa` column and an
auto-increment `id` column, created before the engine is reopened. -/
def preT : CreateTableOptions := ⟨"t", [("aaa", nameD), ("id", idD)]⟩

/-- The engine whose store carries `preT`, before reopening. -/
def engPre : StorageEngine := (create_table emptyEngine preT).2

/-- C8 counterexample: on the reopened store, an insert into `t` omitting
the auto-increment `id` — but also omitting the mandatory `aaa` — fails
with `MissingColumnError`, not `NoCounterError`: the schema scan hits the
missing mandatory column first. -/
theorem c8_no_counter_preempted :
    (attachStore engPre.db).auto_incs = [] ∧
      lookupS preT.columns "id" = some idD ∧
      idD.auto_increment = true ∧
      (([] : List String).contains "id") = false ∧
      insert_rows (attachStore engPre.db) ⟨"t", [], []⟩ true =
        (.err (.missingColumn "aaa"), attachStore engPre.db) :=
  ⟨rfl, rfl, rfl, rfl, rfl⟩

/-- C8 (amended): reopening attaches to the existing store unchanged and
seeds no counters; consequently an otherwise-valid insert (supplied columns
exist, mandatory columns supplied, omitted defaults literal) that omits an
auto-increment column fails with `NoCounterError` for such a column, the
engine unchanged. -/
theorem c8_reopen_no_counter_amended (db : DB) (op : InsertOptions)
    (md : ColumnDescriptors) (commitOk : Bool)
    (hmd : table_metadata (attachStore db) op.table = .ok md)
    (hcols : ∀ c ∈ op.columns, containsS md c = true)
    (hneed : ∀ p ∈ md, p.2.needs_value = true → op.columns.contains p.1 = true)
    (hdefs : ∀ p ∈ md, op.columns.contains p.1 = false →
      p.2.default = none ∨ ∃ v, p.2.default = some (.value v))
    (hex : ∃ p ∈ md, p.2.auto_increment = true ∧ p.2.default = none ∧
      op.columns.contains p.1 = false) :
    (attachStore db).db = db ∧ (attachStore db).auto_incs = [] ∧
      ∃ c, (∃ d, (c, d) ∈ md ∧ d.auto_increment = true ∧
          op.columns.contains c = false) ∧
        insert_rows (attachStore db) op commitOk =
          (.err (.noCounter c), attachStore db) := by
  refine ⟨rfl, rfl, ?_⟩
  obtain ⟨c, hprops, heq⟩ :=
    computeActionsGo_noCounter op.table op.columns md [] hneed hdefs hex
  exact ⟨c, hprops,
    insert_rows_action_error (attachStore db) op commitOk md _ hmd
      (find?_none_of_contains md op.columns hcols) heq⟩

/-- C8 amended witnessed: reopening the store carrying `users` and
inserting `{name: "Daniel"}` fails with a no-counter error for an omitted
auto-increment column (`id`). -/
theorem c8_reopen_no_counter_witness :
    (attachStore engUsers.db).db = engUsers.db ∧
      (attachStore engUsers.db).auto_incs = [] ∧
      ∃ c, (∃ d, (c, d) ∈ usersOpts.columns ∧ d.auto_increment = true ∧
          (["name"] : List String).contains c = false) ∧
        insert_rows (attachStore engUsers.db) insertDaniel true =
          (.err (.noCounter c), attachStore engUsers.db) :=
  c8_reopen_no_counter_amended engUsers.db insertDaniel usersOpts.columns true
    rfl
    (by
      intro c hc
      have hc2 := List.mem_singleton.mp hc
      subst hc2
      rfl)
    (by
      intro p hp h1
      have hp2 : p ∈ [("city", cityD), ("id", idD), ("name", nameD)] := hp
      fin_cases hp2
      · exact absurd h1 (by decide)
      · exact absurd h1 (by decide)
      · rfl)
    (by
      intro p hp h2
      have hp2 : p ∈ [("city", cityD), ("id", idD), ("name", nameD)] := hp
      fin_cases hp2
      · exact Or.inr ⟨.text "London", rfl⟩
      · exact Or.inl rfl
      · exact absurd h2 (by decide))
    ⟨("id", idD), by decide, rfl, rfl, rfl⟩

/-! ### The per-row validation loop -/

theorem typeCheckRecord_cons (md : ColumnDescriptors) (name : String)
    (value : Value) (rest : Smap Value) :
    typeCheckRecord md ((name, value) :: rest) =
      match lookupS md name with
      | none => .panic
      | some d =>
        if d.value_matches_type value then typeCheckRecord md rest
        else .fail (.typeMismatch name) := rfl

theorem typeCheckRecord_ok_sound (md : ColumnDescriptors) :
    ∀ l : Smap Value, typeCheckRecord md l = .ok →
      ∀ p ∈ l, ∃ d, lookupS md p.1 = some d ∧
        d.value_matches_type p.2 = true := by
  intro l
  induction l with
  | nil => intro _ p hp; cases hp
  | cons q rest ih =>
    obtain ⟨name, value⟩ := q
    intro h p hp
    rw [typeCheckRecord_cons] at h
    split at h
    · cases h
    · rename_i d hlk
      split at h
      · rename_i hm
        rcases List.mem_cons.mp hp with heq | htail
        · subst heq
          exact ⟨d, hlk, hm⟩
        · exact ih h p htail
      · cases h

theorem typeCheckRecord_fail_shape (md : ColumnDescriptors) :
    ∀ (l : Smap Value) (e : EngineError), typeCheckRecord md l = .fail e →
      ∃ c, e = .typeMismatch c := by
  intro l
  induction l with
  | nil => intro e h; cases h
  | cons q rest ih =>
    obtain ⟨name, value⟩ := q
    intro e h
    rw [typeCheckRecord_cons] at h
    split at h
    · cases h
    · rename_i d hlk
      split at h
      · exact ih e h
      · cases h
        exact ⟨name, rfl⟩

theorem typeCheckRecord_ne_panic (md : ColumnDescriptors) :
    ∀ l : Smap Value, (∀ p ∈ l, containsS md p.1 = true) →
      typeCheckRecord md l ≠ .panic := by
  intro l
  induction l with
  | nil => intro _ h; cases h
  | cons q rest ih =>
    obtain ⟨name, value⟩ := q
    intro hall
    rw [typeCheckRecord_cons]
    split
    · rename_i hlk
      have hc := hall (name, value) (List.mem_cons_self _ _)
      unfold containsS at hc
      rw [hlk] at hc
      cases hc
    · rename_i d hlk
      split
      · exact ih (fun p hp => hall p (List.mem_cons_of_mem _ hp))
      · intro hh
        cases hh

/-! ### Keys of a gathered record come from the supplied columns -/

theorem insertS_cons {α : Type} (k0 : String) (v0 : α) (rest : Smap α)
    (k : String) (v : α) :
    insertS ((k0, v0) :: rest) k v =
      if strLt k k0 then (k, v) :: (k0, v0) :: rest
      else if k = k0 then (k, v) :: rest
      else (k0, v0) :: insertS rest k v := rfl

theorem mem_insertS {α : Type} :
    ∀ (m : Smap α) (k : String) (v : α) (p : String × α),
      p ∈ insertS m k v → p = (k, v) ∨ p ∈ m := by
  intro m
  induction m with
  | nil =>
    intro k v p hp
    exact Or.inl (List.mem_singleton.mp hp)
  | cons q rest ih =>
    obtain ⟨k0, v0⟩ := q
    intro k v p hp
    rw [insertS_cons] at hp
    split at hp
    · rcases List.mem_cons.mp hp with h1 | h2
      · exact Or.inl h1
      · exact Or.inr h2
    · split at hp
      · rcases List.mem_cons.mp hp with h1 | h2
        · exact Or.inl h1
        · exact Or.inr (List.mem_cons_of_mem _ h2)
      · rcases List.mem_cons.mp hp with h1 | h2
        · rw [h1]
          exact Or.inr (List.mem_cons_self _ _)
        · rcases ih k v p h2 with h3 | h4
          · exact Or.inl h3
          · exact Or.inr (List.mem_cons_of_mem _ h4)

theorem mem_foldl_insertS :
    ∀ (pairs : List (String × Value)) (m : Smap Value) (p : String × Value),
      p ∈ pairs.foldl (fun acc q => insertS acc q.1 q.2) m →
      p.1 ∈ pairs.map Prod.fst ∨ p ∈ m := by
  intro pairs
  induction pairs with
  | nil => intro m p hp; exact Or.inr hp
  | cons q rest ih =>
    intro m p hp
    rw [List.foldl_cons] at hp
    rcases ih _ p hp with h1 | h2
    · exact Or.inl (List.mem_cons_of_mem _ h1)
    · rcases mem_insertS m q.1 q.2 p h2 with h3 | h4
      · rw [h3, List.map_cons]
        exact Or.inl (List.mem_cons_self _ _)
      · exact Or.inr h4

theorem records_keys (op : InsertOptions) (rec : Record)
    (hrec : rec ∈ op.records) (p : String × Value) (hp : p ∈ rec.columns) :
    p.1 ∈ op.columns := by
  unfold InsertOptions.records at hrec
  rcases List.mem_map.mp hrec with ⟨row, _, heq⟩
  subst heq
  rcases mem_foldl_insertS (op.columns.zip row) [] p hp with h1 | h2
  · rcases List.mem_map.mp h1 with ⟨q, hq, hq1⟩
    obtain ⟨qa, qb⟩ := q
    rw [← hq1]
    exact (List.of_mem_zip hq).1
  · cases h2

/-! ### The row loop -/

theorem processRows_cons_fail (md : ColumnDescriptors) (actions : Smap Action)
    (counters : Counters) (batch : List (String × Record)) (r : Record)
    (rest : List Record) (e : EngineError)
    (h : typeCheckRecord md r.columns = .fail e) :
    processRows md actions counters batch (r :: rest) = .err e counters := by
  rw [processRows, h]

theorem processRows_cons_ok (md : ColumnDescriptors) (actions : Smap Action)
    (counters : Counters) (batch : List (String × Record)) (r : Record)
    (rest : List Record) (pk : String)
    (h : typeCheckRecord md r.columns = .ok)
    (hpk : generate_pk_name (applyActions counters r actions).1 md = some pk) :
    processRows md actions counters batch (r :: rest) =
      processRows md actions (applyActions counters r actions).2
        (batch ++ [(pk, (applyActions counters r actions).1)]) rest := by
  rw [processRows, h, hpk]

theorem processRows_ok_sound (md : ColumnDescriptors) (actions : Smap Action) :
    ∀ (rows : List Record) (counters : Counters)
      (batch b2 : List (String × Record)) (c2 : Counters),
      processRows md actions counters batch rows = .ok b2 c2 →
      ∀ rec ∈ rows, typeCheckRecord md rec.columns = .ok := by
  intro rows
  induction rows with
  | nil => intro _ _ _ _ _ rec hrec; cases hrec
  | cons r rest ih =>
    intro counters batch b2 c2 h rec hrec
    rw [processRows] at h
    split at h
    · cases h
    · cases h
    · rename_i hok
      split at h
      · cases h
      · rcases List.mem_cons.mp hrec with heq | htail
        · subst heq
          exact hok
        · exact ih _ _ _ _ h rec htail

theorem processRows_err_shape (md : ColumnDescriptors) (actions : Smap Action) :
    ∀ (rows : List Record) (counters : Counters)
      (batch : List (String × Record)) (e : EngineError) (cs : Counters),
      processRows md actions counters batch rows = .err e cs →
      ∃ c, e = .typeMismatch c := by
  intro rows
  induction rows with
  | nil => intro _ _ _ _ h; cases h
  | cons r rest ih =>
    intro counters batch e cs h
    rw [processRows] at h
    split at h
    · rename_i e0 htc
      cases h
      exact typeCheckRecord_fail_shape md r.columns _ htc
    · cases h
    · split at h
      · cases h
      · exact ih _ _ _ _ h

theorem processRows_ne_panic (md : ColumnDescriptors) (actions : Smap Action) :
    ∀ (rows : List Record) (counters : Counters)
      (batch : List (String × Record)) (cs : Counters),
      (∀ rec ∈ rows, typeCheckRecord md rec.columns ≠ .panic) →
      specRowKey md ≠ "" →
      processRows md actions counters batch rows ≠ .panic cs := by
  intro rows
  induction rows with
  | nil => intro _ _ _ _ _ h; cases h
  | cons r rest ih =>
    intro counters batch cs hall hkey
    rw [processRows]
    split
    · intro hh; cases hh
    · rename_i htc
      exact absurd htc (hall r (List.mem_cons_self _ _))
    · split
      · rename_i hpk
        rw [generate_pk_name_eq, if_neg hkey] at hpk
        cases hpk
      · exact ih _ _ cs (fun rec hrec => hall rec (List.mem_cons_of_mem _ hrec)) hkey

/-- Failing on `bad` after the well-typed prefix `front`: the loop errors
with `bad`'s type error, the staged batch is discarded, and the counters
retain every fetch-and-increment performed for the prefix rows. -/
theorem processRows_err_prefix (md : ColumnDescriptors) (actions : Smap Action) :
    ∀ (front : List Record) (counters : Counters)
      (batch : List (String × Record)) (bad : Record) (rest : List Record)
      (e : EngineError),
      (∀ rec ∈ front, typeCheckRecord md rec.columns = .ok) →
      typeCheckRecord md bad.columns = .fail e →
      specRowKey md ≠ "" →
      processRows md actions counters batch (front ++ bad :: rest) =
        .err e (front.foldl (fun cs rec => (applyActions cs rec actions).2)
          counters) := by
  intro front
  induction front with
  | nil =>
    intro counters batch bad rest e _ hbad _
    rw [List.nil_append, List.foldl_nil]
    exact processRows_cons_fail md actions counters batch bad rest e hbad
  | cons r front' ih =>
    intro counters batch bad rest e hfront hbad hkey
    rw [List.cons_append, List.foldl_cons,
      processRows_cons_ok md actions counters batch r (front' ++ bad :: rest)
        (specRowKey md) (hfront r (List.mem_cons_self _ _))
        (by rw [generate_pk_name_eq, if_neg hkey])]
    exact ih _ _ bad rest e
      (fun rec hrec => hfront rec (List.mem_cons_of_mem _ hrec)) hbad hkey

/-- Reduction of `insert_rows` to its row loop once the schema is loaded,
the supplied columns are validated and the actions are recorded. -/
theorem insert_rows_rows_result (eng : StorageEngine) (op : InsertOptions)
    (commitOk : Bool) (md : ColumnDescriptors) (acts : Smap Action)
    (hmd : table_metadata eng op.table = .ok md)
    (hfind : op.columns.find? (fun x => !(containsS md x)) = none)
    (hacts : computeActionsGo eng.auto_incs op.table op.columns [] md = .ok acts) :
    insert_rows eng op commitOk =
      (match processRows md acts eng.auto_incs [] op.records with
       | .err e cs => (.err e, ⟨eng.db, cs⟩)
       | .panic cs => (.panic, ⟨eng.db, cs⟩)
       | .ok batch cs =>
         if commitOk then
           (.ok,
             ⟨eng.db.write (batch.map (fun p => (op.table, p.1, .row p.2))), cs⟩)
         else (.err .storeWriteError, ⟨eng.db, cs⟩)) := by
  simp only [insert_rows, hmd, hfind, hacts]

/-! ### C1: type safety of stored values -/

/-- A text column with a numeric literal default: the generated value will
not match the declared type. -/
def zD : ColumnDescriptor :=
  { datatype := .text, default := some (.value (.number 5)) }

/-- A table whose `z` column generates a value of the wrong type. -/
def badDefOpts : CreateTableOptions := ⟨"t1", [("a", nameD), ("z", zD)]⟩

/-- The engine carrying `badDefOpts` on a fresh store. -/
def engBadDef : StorageEngine := (create_table emptyEngine badDefOpts).2

/-- C1 counterexample: an insert generating `z`'s default succeeds, yet the
stored row holds a number in the text column `z` — generated values are
never checked against `value_matches_type`, refuting the claim that every
stored value (supplied or generated) satisfies it. -/
theorem c1_generated_value_unchecked :
    (insert_rows engBadDef ⟨"t1", ["a"], [[.text "x"]]⟩ true).1 = .ok ∧
      DB.get_cf (insert_rows engBadDef ⟨"t1", ["a"], [[.text "x"]]⟩ true).2.db
        "t1" "a/z" = some (.row ⟨[("a", .text "x"), ("z", .number 5)]⟩) ∧
      lookupS badDefOpts.columns "z" = some zD ∧
      zD.value_matches_type (.number 5) = false :=
  ⟨rfl, rfl, rfl, rfl⟩

/-- C1 (amended): every *supplied* value of a successful call satisfies
`value_matches_type` for its column; and a supplied value of the wrong
variant — in a request whose other validations pass (schema loads, supplied
columns known, generation actions resolve, row key derivable) — makes the
whole call fail with `TypeMismatchError`, the store untouched.  Generated
values are not type-checked (see the counterexample). -/
theorem c1_supplied_type_safety_amended :
    (∀ (eng : StorageEngine) (op : InsertOptions) (commitOk : Bool)
        (eng' : StorageEngine) (md : ColumnDescriptors),
        insert_rows eng op commitOk = (.ok, eng') →
        table_metadata eng op.table = .ok md →
        ∀ rec ∈ op.records, ∀ p ∈ rec.columns,
          ∃ d, lookupS md p.1 = some d ∧ d.value_matches_type p.2 = true) ∧
      ∀ (eng : StorageEngine) (op : InsertOptions) (commitOk : Bool)
        (md : ColumnDescriptors) (acts : Smap Action),
        table_metadata eng op.table = .ok md →
        op.columns.find? (fun x => !(containsS md x)) = none →
        computeActionsGo eng.auto_incs op.table op.columns [] md = .ok acts →
        specRowKey md ≠ "" →
        (∃ rec ∈ op.records, ∃ p ∈ rec.columns, ∃ d,
          lookupS md p.1 = some d ∧ d.value_matches_type p.2 = false) →
        ∃ c eng', insert_rows eng op commitOk =
          (.err (.typeMismatch c), eng') ∧ eng'.db = eng.db := by
  constructor
  · intro eng op commitOk eng' md hok hmd
    unfold insert_rows at hok
    split at hok
    · exact RunResult.noConfusion (congrArg Prod.fst hok)
    · rename_i md2 hmd2
      split at hok
      · exact RunResult.noConfusion (congrArg Prod.fst hok)
      · split at hok
        · exact RunResult.noConfusion (congrArg Prod.fst hok)
        · rename_i acts hacts
          split at hok
          · exact RunResult.noConfusion (congrArg Prod.fst hok)
          · exact RunResult.noConfusion (congrArg Prod.fst hok)
          · rename_i batch cs hproc
            rw [hmd] at hmd2
            cases hmd2
            intro rec hrec p hp
            exact typeCheckRecord_ok_sound md rec.columns
              (processRows_ok_sound md acts op.records eng.auto_incs [] batch cs
                hproc rec hrec) p hp
  · intro eng op commitOk md acts hmd hfind hacts hkey hbad
    cases hproc : processRows md acts eng.auto_incs [] op.records with
    | ok b2 c2 =>
      exfalso
      obtain ⟨rec, hrec, p, hp, d, hlk, hbad2⟩ := hbad
      obtain ⟨d2, hlk2, hm⟩ := typeCheckRecord_ok_sound md rec.columns
        (processRows_ok_sound md acts op.records eng.auto_incs [] b2 c2 hproc
          rec hrec) p hp
      rw [hlk] at hlk2
      cases hlk2
      rw [hm] at hbad2
      cases hbad2
    | panic cs =>
      exfalso
      refine processRows_ne_panic md acts op.records eng.auto_incs [] cs
        ?_ hkey hproc
      intro rec hrec
      refine typeCheckRecord_ne_panic md rec.columns ?_
      intro p hp
      have hx : p.1 ∈ op.columns := records_keys op rec hrec p hp
      have hnx := List.find?_eq_none.mp hfind p.1 hx
      cases hcs : containsS md p.1 with
      | true => rfl
      | false => exact absurd (by rw [hcs]; rfl) hnx
    | err e cs =>
      obtain ⟨c, hc⟩ := processRows_err_shape md acts op.records eng.auto_incs
        [] e cs hproc
      subst hc
      refine ⟨c, ⟨eng.db, cs⟩, ?_, rfl⟩
      rw [insert_rows_rows_result eng op commitOk md acts hmd hfind hacts, hproc]

/-- C1 amended witnessed: the supplied `name` value of the successful
`{name: "Daniel"}` insert type-checks, and the two-row request whose second
row supplies a boolean for `name` fails with a type mismatch leaving the
store untouched. -/
theorem c1_supplied_type_safety_witness :
    (∃ d, lookupS usersOpts.columns "name" = some d ∧
        d.value_matches_type (.text "Daniel") = true) ∧
      ∃ c eng', insert_rows engUsers opTwoRows true =
        (.err (.typeMismatch c), eng') ∧ eng'.db = engUsers.db :=
  ⟨c1_supplied_type_safety_amended.1 engUsers insertDaniel true
      (insert_rows engUsers insertDaniel true).2 usersOpts.columns rfl rfl
      ⟨[("name", .text "Daniel")]⟩ (by decide) ("name", .text "Daniel")
      (by decide),
    c1_supplied_type_safety_amended.2 engUsers opTwoRows true usersOpts.columns
      [("city", .applyConstant (.text "London")),
        ("id", .increment ⟨"users", "id"⟩)] rfl rfl rfl (by decide)
      ⟨⟨[("name", .boolean false)]⟩, by decide, ("name", .boolean false),
        by decide, nameD, rfl, rfl⟩⟩

/-! ### C10: counters are not rolled back on a failed call -/

/-- C10: when a multi-row insert fails on a later row, the call returns the
failing row's error with the store untouched, and the counter table
reflects every fetch-and-increment performed for the earlier, well-typed
rows — none are rolled back; concretely, the two-row call whose second row
is ill-typed leaves the store unchanged and the `users.id` counter at 2
(up from 1) with no row persisted. -/
theorem c10_counter_not_rolled_back :
    (∀ (eng : StorageEngine) (op : InsertOptions) (commitOk : Bool)
        (md : ColumnDescriptors) (acts : Smap Action) (front : List Record)
        (bad : Record) (rest : List Record) (e : EngineError),
        table_metadata eng op.table = .ok md →
        op.columns.find? (fun x => !(containsS md x)) = none →
        computeActionsGo eng.auto_incs op.table op.columns [] md = .ok acts →
        specRowKey md ≠ "" →
        op.records = front ++ bad :: rest →
        (∀ rec ∈ front, typeCheckRecord md rec.columns = .ok) →
        typeCheckRecord md bad.columns = .fail e →
        insert_rows eng op commitOk =
          (.err e, ⟨eng.db,
            front.foldl (fun cs rec => (applyActions cs rec acts).2)
              eng.auto_incs⟩)) ∧
      insert_rows engUsers opTwoRows true =
        (.err (.typeMismatch "name"), ⟨engUsers.db, [(⟨"users", "id"⟩, 2)]⟩) ∧
      lookupE engUsers.auto_incs ⟨"users", "id"⟩ = some 1 ∧
      lookupE [(⟨"users", "id"⟩, 2)] ⟨"users", "id"⟩ = some 2 := by
  refine ⟨?_, rfl, rfl, rfl⟩
  intro eng op commitOk md acts front bad rest e hmd hfind hacts hkey hrows
    hfront hbad
  rw [insert_rows_rows_result eng op commitOk md acts hmd hfind hacts, hrows,
    processRows_err_prefix md acts front eng.auto_incs [] bad rest e hfront
      hbad hkey]

/-- C10 witnessed: the general statement applied to the concrete two-row
request against `users`. -/
theorem c10_counter_not_rolled_back_witness :
    insert_rows engUsers opTwoRows true =
      (.err (.typeMismatch "name"),
        ⟨engUsers.db,
          List.foldl
            (fun cs rec => (applyActions cs rec
              [("city", Action.applyConstant (.text "London")),
                ("id", Action.increment ⟨"users", "id"⟩)]).2)
            engUsers.auto_incs [⟨[("name", Value.text "D")]⟩]⟩) :=
  c10_counter_not_rolled_back.1 engUsers opTwoRows true usersOpts.columns
    [("city", .applyConstant (.text "London")),
      ("id", .increment ⟨"users", "id"⟩)]
    [⟨[("name", .text "D")]⟩] ⟨[("name", .boolean false)]⟩ []
    (.typeMismatch "name") rfl rfl rfl (by decide) rfl
    (by
      intro rec hrec
      have h2 : rec ∈ [(⟨[("name", Value.text "D")]⟩ : Record)] := hrec
      cases List.mem_singleton.mp h2
      rfl)
    rfl

end Dechib
